import Mathlib

/-!
Shallow embedding of the Telegram MCQ quiz scheduler bot (core variant:
src/unnamed/part_001) and proofs about its store, scheduler and admission
operations.

Modelling conventions:
- The persisted JSON document (loadDB/saveDB pair) is modelled as a value of
  type DB threaded through the operations.  An operation of the source that
  calls saveDB returns a new DB; an operation that only reads returns its
  result together with the unchanged document (getNextUnpostedMCQ returns the
  pair to make the absence of a save explicit).
- Date.now() is passed as an explicit natural-number parameter named now.
- JS null is Option.none; the JS idiom (x || null), which maps every falsy
  value to null, is modelled by jsOrNull (empty string to none) and
  jsNumOrNull (zero to none).
- The Telegram sendPoll call of the scheduler tick is the Delivery Port; it
  is modelled by the DeliveryOutcome parameter: failure (the call threw) or
  success carrying the optional poll id of the response (res?.poll?.id).
- The setInterval handle is modelled by the Boolean schedulerHandle (true
  exactly when the JS variable holds a non-null timer handle).  Inside
  startScheduler the un-awaited async call postNextMCQIfAny() suspends at its
  first await before the following setInterval assignment runs, so the
  sequential model performs the immediate tick after the handle is assigned.
-/

namespace QuizSchedulerBot

/-- One MCQ record, as built by addMCQ in src/unnamed/part_001. -/
structure MCQ where
  id : Nat
  question : String
  options : List String
  correct_index : Int
  uploaded_by : Option Nat
  uploaded_at : Nat
  posted_at : Option Nat
  telegram_poll_id : Option String
deriving DecidableEq, Repr

/-- The persisted store document: { nextId, mcqs }. -/
structure DB where
  nextId : Nat
  mcqs : List MCQ
deriving DecidableEq, Repr

/-- The document loadDB returns when the file is missing or corrupt:
{ nextId: 1, mcqs: [] }. -/
def emptyDB : DB := { nextId := 1, mcqs := [] }

/-- JS (s || null) on an optional string: every falsy value (absent value or
empty string) becomes null. -/
def jsOrNull (s : Option String) : Option String :=
  match s with
  | none => none
  | some str => if str = "" then none else some str

/-- JS (n || null) on an optional number: absent value or zero becomes null
(used for the uploadedBy argument of addMCQ). -/
def jsNumOrNull (n : Option Nat) : Option Nat :=
  match n with
  | none => none
  | some k => if k = 0 then none else some k

/-- A record is pending when posted_at is null (the predicate of
getNextUnpostedMCQ and countPendingMCQs). -/
def isPending (m : MCQ) : Bool := m.posted_at.isNone

/-- addMCQ: build the entry with id = db.nextId (then nextId++), uploaded_at =
now, posted_at = null, telegram_poll_id = null; push it and save. -/
def addMCQ (db : DB) (question : String) (options : List String)
    (correctIndex : Int) (uploadedBy : Option Nat) (now : Nat) : MCQ × DB :=
  let entry : MCQ :=
    { id := db.nextId
      question := question
      options := options
      correct_index := correctIndex
      uploaded_by := jsNumOrNull uploadedBy
      uploaded_at := now
      posted_at := none
      telegram_poll_id := none }
  (entry, { nextId := db.nextId + 1, mcqs := db.mcqs ++ [entry] })

/-- getNextUnpostedMCQ: db.mcqs.find(m => m.posted_at === null) || null.
The second component is the persisted document after the call: the source
never calls saveDB here, so it is returned unchanged. -/
def getNextUnpostedMCQ (db : DB) : Option MCQ × DB :=
  (db.mcqs.find? isPending, db)

/-- Mutation step of markMCQPosted on the list of records: findIndex locates
the first record whose id matches, and that record alone gets posted_at = now
and telegram_poll_id = pollId || null; when no index matches (findIndex
returns -1) the list is untouched. -/
def markInList : List MCQ → Nat → Option String → Nat → List MCQ
  | [], _, _, _ => []
  | m :: rest, id, pollId, now =>
    if m.id = id then
      { m with posted_at := some now, telegram_poll_id := jsOrNull pollId } :: rest
    else
      m :: markInList rest id pollId now

/-- markMCQPosted: locate the record by id and set posted_at / poll id, then
save; no record and no save when the id is absent (the document value is then
unchanged either way). -/
def markMCQPosted (db : DB) (id : Nat) (pollId : Option String) (now : Nat) : DB :=
  { db with mcqs := markInList db.mcqs id pollId now }

/-- countPendingMCQs: db.mcqs.filter(m => m.posted_at === null).length. -/
def countPendingMCQs (db : DB) : Nat :=
  (db.mcqs.filter isPending).length

/-- Lookup of a record by id (db.mcqs.find(m => m.id === id)), used to state
properties of individual records. -/
def recordById (db : DB) (id : Nat) : Option MCQ :=
  db.mcqs.find? (fun m => m.id == id)

/-- Well-formedness of a store document, as maintained by the program itself
(records appear in insertion order with strictly increasing ids, and nextId
is strictly greater than every assigned id). -/
def WFdb (db : DB) : Prop :=
  db.mcqs.Pairwise (fun a b => a.id < b.id) ∧ ∀ m ∈ db.mcqs, m.id < db.nextId

instance (db : DB) : Decidable (WFdb db) := by
  unfold WFdb; infer_instance

/-- Outcome of one Delivery Port invocation (bot.telegram.sendPoll): failure
means the call threw; success carries the optional poll id of the response
(res?.poll?.id, absent when the response carries no poll identifier). -/
inductive DeliveryOutcome where
  | failure
  | success (rawPollId : Option String)
deriving DecidableEq, Repr

/-- Scheduler state: the persisted document plus the two module-level
variables schedulerHandle (true exactly when the setInterval handle is
non-null) and schedulerPaused. -/
structure SchedState where
  db : DB
  schedulerHandle : Bool
  schedulerPaused : Bool
deriving DecidableEq, Repr

/-- pauseScheduler: clearInterval and null the handle, set paused = true. -/
def pauseScheduler (s : SchedState) : SchedState :=
  { s with schedulerHandle := false, schedulerPaused := true }

/-- postNextMCQIfAny, one scheduler tick: read the next unposted record; if
none, pause and stop; otherwise invoke the Delivery Port, and on success
mark the record posted with pollId = res?.poll?.id || null, while on failure
(the catch branch) leave everything unchanged so the same record is retried.
The second component counts the markMCQPosted calls made by this tick. -/
def postNextMCQIfAny (s : SchedState) (outcome : DeliveryOutcome) (now : Nat) :
    SchedState × Nat :=
  match (getNextUnpostedMCQ s.db).1 with
  | none => (pauseScheduler s, 0)
  | some mcq =>
    match outcome with
    | .failure => (s, 0)
    | .success raw =>
      ({ s with db := markMCQPosted s.db mcq.id (jsOrNull raw) now }, 1)

/-- startScheduler: a no-op (apart from paused = false) when the handle
already exists; otherwise set paused = false, fire an immediate
postNextMCQIfAny and install the interval handle.  The immediate call is an
un-awaited async function: it suspends at its first await before setInterval
runs, so the handle is assigned before the tick body takes effect. -/
def startScheduler (s : SchedState) (outcome : DeliveryOutcome) (now : Nat) :
    SchedState :=
  if s.schedulerHandle then { s with schedulerPaused := false }
  else
    (postNextMCQIfAny
      { s with schedulerPaused := false, schedulerHandle := true } outcome now).1

/-- Process start (the init IIFE): from the freshly loaded document and the
initial module state (handle null, paused true), call startScheduler exactly
when countPendingMCQs() > 0. -/
def initScheduler (db : DB) (outcome : DeliveryOutcome) (now : Nat) : SchedState :=
  let s0 : SchedState := { db := db, schedulerHandle := false, schedulerPaused := true }
  if 0 < countPendingMCQs db then startScheduler s0 outcome now else s0

/-- Replies of the upload command that matter to the store/scheduler core:
the two validation rejections and the success acknowledgment. -/
inductive UploadReply where
  | invalidIndex
  | badOptionCount
  | queued (id : Nat)
deriving DecidableEq, Repr

/-- The upload command of src/unnamed/part_001 after parsing (correctIndex =
Number(parts.pop()), question = parts.shift(), options = parts): reject when
correctIndex is not an integer (modelled by none) or out of [0, options
length), then reject when the option count is outside [2,10]; otherwise
addMCQ, and startScheduler when schedulerPaused.  The outcome/now arguments
feed the immediate tick of that resume. -/
def uploadCommand (s : SchedState) (question : String) (options : List String)
    (correctIndex : Option Int) (uploader : Nat) (now : Nat)
    (outcome : DeliveryOutcome) : UploadReply × SchedState :=
  match correctIndex with
  | none => (.invalidIndex, s)
  | some ci =>
    if ci < 0 ∨ (options.length : Int) ≤ ci then (.invalidIndex, s)
    else if options.length < 2 ∨ 10 < options.length then (.badOptionCount, s)
    else
      let (entry, db1) := addMCQ s.db question options ci (some uploader) now
      let s1 : SchedState := { s with db := db1 }
      if s1.schedulerPaused then (.queued entry.id, startScheduler s1 outcome now)
      else (.queued entry.id, s1)

/-- One store-level append input (the arguments of one addMCQ call). -/
structure AppendInput where
  question : String
  options : List String
  correctIndex : Int
  uploadedBy : Option Nat
  now : Nat

/-- Iterated addMCQ: the store after a whole sequence of append calls. -/
def appendMany : DB → List AppendInput → DB
  | db, [] => db
  | db, i :: rest =>
    appendMany (addMCQ db i.question i.options i.correctIndex i.uploadedBy i.now).2 rest

/-- The ids handed out by a sequence of append calls, in call order. -/
def assignedIds : DB → List AppendInput → List Nat
  | _, [] => []
  | db, i :: rest =>
    let (entry, db1) := addMCQ db i.question i.options i.correctIndex i.uploadedBy i.now
    entry.id :: assignedIds db1 rest

/-- Implicit invariant relating the two scheduler globals: schedulerPaused is
true exactly when the interval handle is null. -/
def SchedInv (s : SchedState) : Prop :=
  s.schedulerPaused = !s.schedulerHandle

instance (s : SchedState) : Decidable (SchedInv s) := by
  unfold SchedInv; infer_instance

/-! Concrete sample data used by witnesses and counterexamples. -/

/-- Sample pending record with id 1. -/
def mcqA : MCQ :=
  { id := 1, question := "2+2=?", options := ["3", "4", "5"], correct_index := 1,
    uploaded_by := some 7, uploaded_at := 0, posted_at := none,
    telegram_poll_id := none }

/-- Sample pending record with id 2. -/
def mcqB : MCQ :=
  { id := 2, question := "capital?", options := ["a", "b"], correct_index := 0,
    uploaded_by := none, uploaded_at := 1, posted_at := none,
    telegram_poll_id := none }

/-- Sample store holding the two pending records mcqA and mcqB. -/
def dbAB : DB := { nextId := 3, mcqs := [mcqA, mcqB] }

/-- Sample store holding only mcqA. -/
def dbA : DB := { nextId := 2, mcqs := [mcqA] }

/-- Sample running scheduler state over dbAB. -/
def stAB : SchedState :=
  { db := dbAB, schedulerHandle := true, schedulerPaused := false }

/-- Sample paused scheduler state over the empty store. -/
def stPaused : SchedState :=
  { db := emptyDB, schedulerHandle := false, schedulerPaused := true }

/-- Sample sequence of two append inputs. -/
def sampleInputs : List AppendInput :=
  [ { question := "q1", options := ["a", "b"], correctIndex := 0,
      uploadedBy := some 7, now := 5 },
    { question := "q2", options := ["c", "d"], correctIndex := 1,
      uploadedBy := none, now := 6 } ]

/-! Shared lemmas about the store operations. -/

theorem nodup_ids_of_pairwise {l : List MCQ}
    (h : l.Pairwise (fun a b => a.id < b.id)) : (l.map MCQ.id).Nodup :=
  List.pairwise_map.mpr (h.imp fun hlt => Nat.ne_of_lt hlt)

theorem find?_isPending_min {l : List MCQ}
    (hs : l.Pairwise (fun a b => a.id < b.id)) {r : MCQ}
    (hf : l.find? isPending = some r) :
    ∀ m ∈ l, isPending m → r.id ≤ m.id := by
  induction l with
  | nil => simp at hf
  | cons a tl ih =>
    rcases List.pairwise_cons.mp hs with ⟨ha_lt, htl⟩
    by_cases ha : isPending a
    · rw [List.find?_cons_of_pos _ ha] at hf
      injection hf with hr
      subst hr
      intro m hm _
      rcases List.mem_cons.mp hm with h | h
      · exact h ▸ Nat.le_refl _
      · exact Nat.le_of_lt (ha_lt m h)
    · rw [List.find?_cons_of_neg _ (by simpa using ha)] at hf
      intro m hm hp
      rcases List.mem_cons.mp hm with h | h
      · exact absurd (h ▸ hp) ha
      · exact ih htl hf m h hp

theorem markInList_of_forall_ne {l : List MCQ} {id : Nat}
    (h : ∀ m ∈ l, m.id ≠ id) (p : Option String) (t : Nat) :
    markInList l id p t = l := by
  induction l with
  | nil => rfl
  | cons a tl ih =>
    have ha : a.id ≠ id := h a (List.mem_cons_self a tl)
    simp only [markInList, if_neg ha]
    rw [ih fun m hm => h m (List.mem_cons_of_mem a hm)]

theorem mem_markInList_of_ne {l : List MCQ} {id : Nat} {m : MCQ}
    (hm : m ∈ l) (hne : m.id ≠ id) (p : Option String) (t : Nat) :
    m ∈ markInList l id p t := by
  induction l with
  | nil => simp at hm
  | cons a tl ih =>
    rcases List.mem_cons.mp hm with h | h
    · subst h
      simp only [markInList, if_neg hne]
      exact List.mem_cons_self m _
    · by_cases ha : a.id = id
      · simp only [markInList, if_pos ha]
        exact List.mem_cons_of_mem _ h
      · simp only [markInList, if_neg ha]
        exact List.mem_cons_of_mem a (ih h)

theorem countPending_markInList {l : List MCQ}
    (hnd : (l.map MCQ.id).Nodup) {r : MCQ}
    (hf : l.find? isPending = some r) (p : Option String) (t : Nat) :
    ((markInList l r.id p t).filter isPending).length + 1 =
      (l.filter isPending).length := by
  induction l with
  | nil => simp at hf
  | cons a tl ih =>
    have hsplit : (∀ x ∈ tl, ¬ x.id = a.id) ∧ (tl.map MCQ.id).Nodup := by
      simpa using hnd
    obtain ⟨ha_nin, htl⟩ := hsplit
    by_cases ha : isPending a
    · rw [List.find?_cons_of_pos _ ha] at hf
      injection hf with hr
      subst hr
      have hposted :
          isPending { a with posted_at := some t, telegram_poll_id := jsOrNull p } = false := by
        simp [isPending]
      simp [markInList, List.filter_cons, hposted, ha]
    · rw [List.find?_cons_of_neg _ (by simpa using ha)] at hf
      have hrtl : r ∈ tl := List.mem_of_find?_eq_some hf
      have hane : a.id ≠ r.id := fun hcontra => ha_nin r hrtl hcontra.symm
      have ha' : isPending a = false := by simpa using ha
      simp only [markInList, if_neg hane]
      have hmark := ih htl hf
      simp [List.filter_cons, ha', hmark]

theorem recordById_markInList_first_pending {l : List MCQ}
    (hnd : (l.map MCQ.id).Nodup) {r : MCQ}
    (hf : l.find? isPending = some r) (p : Option String) (t : Nat) :
    (markInList l r.id p t).find? (fun m => m.id == r.id) =
      some { r with posted_at := some t, telegram_poll_id := jsOrNull p } := by
  induction l with
  | nil => simp at hf
  | cons a tl ih =>
    have hsplit : (∀ x ∈ tl, ¬ x.id = a.id) ∧ (tl.map MCQ.id).Nodup := by
      simpa using hnd
    obtain ⟨ha_nin, htl⟩ := hsplit
    by_cases ha : isPending a
    · rw [List.find?_cons_of_pos _ ha] at hf
      injection hf with hr
      subst hr
      simp [markInList]
    · rw [List.find?_cons_of_neg _ (by simpa using ha)] at hf
      have hrtl : r ∈ tl := List.mem_of_find?_eq_some hf
      have hane : a.id ≠ r.id := fun hcontra => ha_nin r hrtl hcontra.symm
      simp only [markInList, if_neg hane]
      rw [List.find?_cons_of_neg _ (by simpa using hane)]
      exact ih htl hf

theorem recordById_of_mem {l : List MCQ}
    (hnd : (l.map MCQ.id).Nodup) {r : MCQ} (hr : r ∈ l) :
    l.find? (fun m => m.id == r.id) = some r := by
  induction l with
  | nil => simp at hr
  | cons a tl ih =>
    have hsplit : (∀ x ∈ tl, ¬ x.id = a.id) ∧ (tl.map MCQ.id).Nodup := by
      simpa using hnd
    obtain ⟨ha_nin, htl⟩ := hsplit
    rcases List.mem_cons.mp hr with h | h
    · subst h
      rw [List.find?_cons_of_pos _ (by simp)]
    · have hane : a.id ≠ r.id := fun hcontra => ha_nin r h hcontra.symm
      rw [List.find?_cons_of_neg _ (by simpa using hane)]
      exact ih htl h

theorem markInList_absorb (l : List MCQ) (id : Nat) (p1 p2 : Option String)
    (t1 t2 : Nat) :
    markInList (markInList l id p1 t1) id p2 t2 = markInList l id p2 t2 := by
  induction l with
  | nil => rfl
  | cons a tl ih =>
    by_cases ha : a.id = id
    · simp [markInList, ha]
    · simp [markInList, ha, ih]

theorem countPending_eq_zero_iff (db : DB) :
    countPendingMCQs db = 0 ↔ (getNextUnpostedMCQ db).1 = none := by
  simp [countPendingMCQs, getNextUnpostedMCQ, List.length_eq_zero,
    List.filter_eq_nil_iff, List.find?_eq_none]

theorem countPending_pos_iff (db : DB) :
    0 < countPendingMCQs db ↔ ∃ r, (getNextUnpostedMCQ db).1 = some r := by
  rw [Nat.pos_iff_ne_zero, Ne, countPending_eq_zero_iff]
  cases h : (getNextUnpostedMCQ db).1 <;> simp

theorem jsOrNull_idem (s : Option String) : jsOrNull (jsOrNull s) = jsOrNull s := by
  cases s with
  | none => rfl
  | some str =>
    by_cases h : str = "" <;> simp [jsOrNull, h]

theorem recordById_markInList (l : List MCQ) (id : Nat) (p : Option String)
    (t : Nat) :
    (markInList l id p t).find? (fun m => m.id == id) =
      (l.find? (fun m => m.id == id)).map
        (fun m0 => { m0 with posted_at := some t, telegram_poll_id := jsOrNull p }) := by
  induction l with
  | nil => rfl
  | cons a tl ih =>
    by_cases ha : a.id = id
    · simp [markInList, ha]
    · simp only [markInList, if_neg ha]
      rw [List.find?_cons_of_neg _ (by simpa using ha),
        List.find?_cons_of_neg _ (by simpa using ha)]
      exact ih

theorem assignedIds_eq_range (inputs : List AppendInput) (db : DB) :
    assignedIds db inputs = List.range' db.nextId inputs.length := by
  induction inputs generalizing db with
  | nil => rfl
  | cons i rest ih =>
    simp [assignedIds, addMCQ, ih, List.range'_succ]

theorem appendMany_mcqs_extends (inputs : List AppendInput) (db : DB) :
    ∃ tail, (appendMany db inputs).mcqs = db.mcqs ++ tail := by
  induction inputs generalizing db with
  | nil => exact ⟨[], by simp [appendMany]⟩
  | cons i rest ih =>
    obtain ⟨tl, htl⟩ :=
      ih (addMCQ db i.question i.options i.correctIndex i.uploadedBy i.now).2
    refine ⟨(addMCQ db i.question i.options i.correctIndex i.uploadedBy i.now).1 :: tl, ?_⟩
    simpa [appendMany, addMCQ, List.append_assoc] using htl

/-! Claim theorems. -/

/-- C1: on every well-formed store document, next_pending (getNextUnpostedMCQ)
returns none exactly when no pending record exists, and otherwise returns the
pending record with the smallest id, which is also the earliest pending record
by insertion order; the operation does not mutate the store.  In particular a
single delivery attempt, which posts exactly this record, selects the record
with id 1 whenever records with ids 1 and 2 are both pending. -/
theorem next_pending_selects_min_id (db : DB) (h : WFdb db) :
    ((getNextUnpostedMCQ db).1 = none ↔ ∀ m ∈ db.mcqs, m.posted_at ≠ none) ∧
    (∀ r, (getNextUnpostedMCQ db).1 = some r →
      r ∈ db.mcqs ∧ r.posted_at = none ∧
      ∀ m ∈ db.mcqs, m.posted_at = none → r.id ≤ m.id) ∧
    (getNextUnpostedMCQ db).2 = db := by
  refine ⟨?_, ?_, rfl⟩
  · rw [show (getNextUnpostedMCQ db).1 = db.mcqs.find? isPending from rfl,
      List.find?_eq_none]
    constructor
    · intro hall m hm hp
      exact hall m hm (by simp [isPending, hp])
    · intro hall m hm hp
      have := hall m hm
      simp [isPending, Option.isNone_iff_eq_none] at hp
      exact this hp
  · intro r hf
    have hf' : db.mcqs.find? isPending = some r := hf
    have hmem := List.mem_of_find?_eq_some hf'
    have hpend : isPending r = true := List.find?_some hf'
    refine ⟨hmem, by simpa [isPending, Option.isNone_iff_eq_none] using hpend, ?_⟩
    intro m hm hmp
    exact find?_isPending_min h.1 hf' m hm (by simp [isPending, hmp])

/-- C1 witness: on the concrete store dbAB, whose records with ids 1 and 2 are
both pending, the record returned by getNextUnpostedMCQ is pending and has the
minimal id, and the store is not mutated. -/
theorem next_pending_selects_min_id_witness :
    WFdb dbAB ∧ (getNextUnpostedMCQ dbAB).1 = some mcqA ∧
    (mcqA ∈ dbAB.mcqs ∧ mcqA.posted_at = none ∧
      ∀ m ∈ dbAB.mcqs, m.posted_at = none → mcqA.id ≤ m.id) ∧
    (getNextUnpostedMCQ dbAB).2 = dbAB :=
  ⟨by decide, by decide,
    ((next_pending_selects_min_id dbAB (by decide)).2.1 mcqA (by decide)),
    (next_pending_selects_min_id dbAB (by decide)).2.2⟩

/-- C2 counterexample: markMCQPosted does not guard re-sets.  On the store dbA
(one record, id 1), a first call at time 10 with reference "ref" followed by a
second call at time 20 with a null reference leaves posted_at = 20 (moved from
10) and telegram_poll_id = null (erased), so the record does not keep the
values set by the first call. -/
theorem mark_posted_idempotent_counterexample :
    ¬ ((recordById (markMCQPosted (markMCQPosted dbA 1 (some "ref") 10) 1 none 20) 1).map
          MCQ.posted_at =
        (recordById (markMCQPosted dbA 1 (some "ref") 10) 1).map MCQ.posted_at ∧
      (recordById (markMCQPosted (markMCQPosted dbA 1 (some "ref") 10) 1 none 20) 1).map
          MCQ.telegram_poll_id =
        (recordById (markMCQPosted dbA 1 (some "ref") 10) 1).map MCQ.telegram_poll_id) := by
  decide

/-- C2 amended: a repeated markMCQPosted call is last-write-wins: calling it
twice on the same id equals a single call with the second call's arguments,
the surviving record carries posted_at = the second call's time and
telegram_poll_id = the second call's null-normalised reference, and under a
non-decreasing clock (t1 le t2) posted_at never moves backward; in particular
a second call with a null reference erases delivery_ref. -/
theorem mark_posted_second_call_overwrites (db : DB) (id : Nat)
    (r1 r2 : Option String) (t1 t2 : Nat) (hle : t1 ≤ t2) :
    markMCQPosted (markMCQPosted db id r1 t1) id r2 t2 = markMCQPosted db id r2 t2 ∧
    recordById (markMCQPosted (markMCQPosted db id r1 t1) id r2 t2) id =
      (recordById db id).map
        (fun m0 => { m0 with posted_at := some t2, telegram_poll_id := jsOrNull r2 }) ∧
    (∀ m1 m2,
      recordById (markMCQPosted db id r1 t1) id = some m1 →
      recordById (markMCQPosted (markMCQPosted db id r1 t1) id r2 t2) id = some m2 →
      m1.posted_at = some t1 ∧ m2.posted_at = some t2 ∧ t1 ≤ t2) := by
  have habs : markMCQPosted (markMCQPosted db id r1 t1) id r2 t2 =
      markMCQPosted db id r2 t2 := by
    simp [markMCQPosted, markInList_absorb]
  refine ⟨habs, ?_, ?_⟩
  · rw [habs]
    exact recordById_markInList db.mcqs id r2 t2
  · intro m1 m2 h1 h2
    rw [show recordById (markMCQPosted db id r1 t1) id =
        (recordById db id).map
          (fun m0 => { m0 with posted_at := some t1, telegram_poll_id := jsOrNull r1 })
      from recordById_markInList db.mcqs id r1 t1] at h1
    rw [habs, show recordById (markMCQPosted db id r2 t2) id =
        (recordById db id).map
          (fun m0 => { m0 with posted_at := some t2, telegram_poll_id := jsOrNull r2 })
      from recordById_markInList db.mcqs id r2 t2] at h2
    rcases Option.map_eq_some'.mp h1 with ⟨a1, _, he1⟩
    rcases Option.map_eq_some'.mp h2 with ⟨a2, _, he2⟩
    exact ⟨he1 ▸ rfl, he2 ▸ rfl, hle⟩

/-- C2 amended witness: the overwrite behaviour evaluated on the concrete
store dbA at times 10 le 20. -/
theorem mark_posted_second_call_overwrites_witness :
    (10 : Nat) ≤ 20 ∧
    markMCQPosted (markMCQPosted dbA 1 (some "ref") 10) 1 none 20 =
      markMCQPosted dbA 1 none 20 :=
  ⟨by decide,
    (mark_posted_second_call_overwrites dbA 1 (some "ref") none 10 20 (by decide)).1⟩

/-- C5: starting from a store document whose ids all lie below nextId, every
sequence of append calls hands out strictly increasing, pairwise distinct ids
that also differ from every id already in the store, and the records already
present survive the whole sequence unchanged (the new document extends the old
record list), so an id never changes once assigned. -/
theorem append_ids_strictly_increasing (db : DB) (inputs : List AppendInput)
    (h : ∀ m ∈ db.mcqs, m.id < db.nextId) :
    (assignedIds db inputs).Pairwise (· < ·) ∧
    (assignedIds db inputs).Nodup ∧
    (∀ i ∈ assignedIds db inputs, ∀ m ∈ db.mcqs, m.id ≠ i) ∧
    ∃ tail, (appendMany db inputs).mcqs = db.mcqs ++ tail := by
  rw [assignedIds_eq_range]
  refine ⟨List.pairwise_lt_range' _ _, List.nodup_range' _ _, ?_,
    appendMany_mcqs_extends inputs db⟩
  intro i hi m hm
  have hge : db.nextId ≤ i := (List.mem_range'_1.mp hi).1
  exact Nat.ne_of_lt (Nat.lt_of_lt_of_le (h m hm) hge)

/-- C5 witness: the append-id properties evaluated on the concrete store dbAB
and the concrete two-element input sequence sampleInputs. -/
theorem append_ids_strictly_increasing_witness :
    (∀ m ∈ dbAB.mcqs, m.id < dbAB.nextId) ∧
    ((assignedIds dbAB sampleInputs).Pairwise (· < ·) ∧
      (assignedIds dbAB sampleInputs).Nodup ∧
      (∀ i ∈ assignedIds dbAB sampleInputs, ∀ m ∈ dbAB.mcqs, m.id ≠ i) ∧
      ∃ tail, (appendMany dbAB sampleInputs).mcqs = dbAB.mcqs ++ tail) :=
  ⟨by decide, append_ids_strictly_increasing dbAB sampleInputs (by decide)⟩

/-- C6: one append increases countPendingMCQs by exactly one; one successful
delivery cycle (a tick whose store has a pending record and whose Delivery
Port succeeds) decreases countPendingMCQs by exactly one, gives the delivered
record a non-null posted_at, and leaves every other record unchanged. -/
theorem count_pending_changes (db : DB) (q : String) (opts : List String)
    (ci : Int) (ub : Option Nat) (t : Nat)
    (s : SchedState) (r : MCQ) (raw : Option String) (t2 : Nat)
    (hwf : WFdb s.db) (hr : (getNextUnpostedMCQ s.db).1 = some r) :
    countPendingMCQs (addMCQ db q opts ci ub t).2 = countPendingMCQs db + 1 ∧
    countPendingMCQs (postNextMCQIfAny s (.success raw) t2).1.db + 1 =
      countPendingMCQs s.db ∧
    recordById (postNextMCQIfAny s (.success raw) t2).1.db r.id =
      some { r with posted_at := some t2, telegram_poll_id := jsOrNull raw } ∧
    (∀ m ∈ s.db.mcqs, m.id ≠ r.id →
      m ∈ (postNextMCQIfAny s (.success raw) t2).1.db.mcqs) := by
  have hnd := nodup_ids_of_pairwise hwf.1
  have hf : s.db.mcqs.find? isPending = some r := hr
  have htick : postNextMCQIfAny s (.success raw) t2 =
      ({ s with db := markMCQPosted s.db r.id (jsOrNull raw) t2 }, 1) := by
    simp [postNextMCQIfAny, hr]
  refine ⟨?_, ?_, ?_, ?_⟩
  · simp [countPendingMCQs, addMCQ, List.filter_append, isPending]
  · rw [htick]
    simpa [countPendingMCQs, markMCQPosted] using
      countPending_markInList hnd hf (jsOrNull raw) t2
  · rw [htick]
    simpa [recordById, markMCQPosted, jsOrNull_idem] using
      recordById_markInList_first_pending hnd hf (jsOrNull raw) t2
  · intro m hm hne
    rw [htick]
    exact mem_markInList_of_ne hm hne (jsOrNull raw) t2

/-- C6 witness: the pending-count deltas evaluated on the empty store (one
append) and on the running state stAB (one successful delivery of mcqA). -/
theorem count_pending_changes_witness :
    WFdb stAB.db ∧ (getNextUnpostedMCQ stAB.db).1 = some mcqA ∧
    countPendingMCQs (addMCQ emptyDB "q" ["a", "b"] 0 none 3).2 =
      countPendingMCQs emptyDB + 1 ∧
    countPendingMCQs (postNextMCQIfAny stAB (.success (some "pid")) 9).1.db + 1 =
      countPendingMCQs stAB.db :=
  ⟨by decide, by decide,
    (count_pending_changes emptyDB "q" ["a", "b"] 0 none 3 stAB mcqA (some "pid") 9
      (by decide) (by decide)).1,
    (count_pending_changes emptyDB "q" ["a", "b"] 0 none 3 stAB mcqA (some "pid") 9
      (by decide) (by decide)).2.1⟩

/-- C7 counterexample: Store.append does not re-validate.  addMCQ on the empty
store with an empty question, a single option and correct_index 5 (violating
the option-count, index-range and non-empty-question invariants all at once)
succeeds, returns a record with id 1 and appends the invalid record instead of
failing and leaving the store unchanged. -/
theorem append_validates_counterexample :
    (¬ 2 ≤ (["only"] : List String).length) ∧
    (¬ (5 : Int) < (((["only"] : List String).length : Nat) : Int)) ∧
    (addMCQ emptyDB "" ["only"] 5 none 0).1.question = "" ∧
    (addMCQ emptyDB "" ["only"] 5 none 0).2.mcqs ≠ emptyDB.mcqs ∧
    (addMCQ emptyDB "" ["only"] 5 none 0).1.id = 1 := by
  decide

/-- C7 amended: Store.append (addMCQ) performs no validation at all: for every
input, including invariant-violating ones, it unconditionally assigns
id = nextId, increments nextId, appends the new pending record verbatim and
returns it; input validation happens only in the upload command front end. -/
theorem append_unconditional (db : DB) (q : String) (opts : List String)
    (ci : Int) (ub : Option Nat) (t : Nat) :
    (addMCQ db q opts ci ub t).2.mcqs = db.mcqs ++ [(addMCQ db q opts ci ub t).1] ∧
    (addMCQ db q opts ci ub t).2.nextId = db.nextId + 1 ∧
    (addMCQ db q opts ci ub t).1.id = db.nextId ∧
    (addMCQ db q opts ci ub t).1.question = q ∧
    (addMCQ db q opts ci ub t).1.options = opts ∧
    (addMCQ db q opts ci ub t).1.correct_index = ci ∧
    (addMCQ db q opts ci ub t).1.posted_at = none :=
  ⟨rfl, rfl, rfl, rfl, rfl, rfl, rfl⟩

/-- C4: when the Delivery Port fails on a tick, the tick (a total function,
so the loop cannot crash) leaves the whole scheduler state unchanged and calls
markMCQPosted zero times, so the head pending record keeps posted_at = null
and the very same record is selected again on the next tick; a failing tick
followed by a succeeding tick leaves the record pending after the first tick,
posted after the second, with exactly one markMCQPosted call in total. -/
theorem delivery_failure_retries (s : SchedState) (r : MCQ) (t1 t2 : Nat)
    (raw : Option String) (hwf : WFdb s.db)
    (hr : (getNextUnpostedMCQ s.db).1 = some r) :
    (postNextMCQIfAny s .failure t1).1 = s ∧
    (postNextMCQIfAny s .failure t1).2 = 0 ∧
    recordById (postNextMCQIfAny s .failure t1).1.db r.id = some r ∧
    r.posted_at = none ∧
    (getNextUnpostedMCQ (postNextMCQIfAny s .failure t1).1.db).1 = some r ∧
    recordById
        (postNextMCQIfAny (postNextMCQIfAny s .failure t1).1 (.success raw) t2).1.db
        r.id =
      some { r with posted_at := some t2, telegram_poll_id := jsOrNull raw } ∧
    (postNextMCQIfAny s .failure t1).2 +
      (postNextMCQIfAny (postNextMCQIfAny s .failure t1).1 (.success raw) t2).2 = 1 := by
  have hnd := nodup_ids_of_pairwise hwf.1
  have hf : s.db.mcqs.find? isPending = some r := hr
  have hfail : postNextMCQIfAny s .failure t1 = (s, 0) := by
    simp [postNextMCQIfAny, hr]
  have hmem : r ∈ s.db.mcqs := List.mem_of_find?_eq_some hf
  have hpend : r.posted_at = none := by
    have := List.find?_some hf
    simpa [isPending, Option.isNone_iff_eq_none] using this
  have hsucc : postNextMCQIfAny s (.success raw) t2 =
      ({ s with db := markMCQPosted s.db r.id (jsOrNull raw) t2 }, 1) := by
    simp [postNextMCQIfAny, hr]
  rw [hfail]
  refine ⟨rfl, rfl, recordById_of_mem hnd hmem, hpend, hr, ?_, ?_⟩
  · rw [hsucc]
    simpa [recordById, markMCQPosted, jsOrNull_idem] using
      recordById_markInList_first_pending hnd hf (jsOrNull raw) t2
  · rw [hsucc]
    rfl

/-- C4 witness: the fail-then-succeed retry evaluated on the running state
stAB with head pending record mcqA. -/
theorem delivery_failure_retries_witness :
    WFdb stAB.db ∧ (getNextUnpostedMCQ stAB.db).1 = some mcqA ∧
    (postNextMCQIfAny stAB .failure 11).1 = stAB ∧
    (postNextMCQIfAny stAB .failure 11).2 +
      (postNextMCQIfAny (postNextMCQIfAny stAB .failure 11).1
        (.success (some "pid")) 12).2 = 1 :=
  ⟨by decide, by decide,
    (delivery_failure_retries stAB mcqA 11 12 (some "pid") (by decide) (by decide)).1,
    (delivery_failure_retries stAB mcqA 11 12 (some "pid") (by decide)
      (by decide)).2.2.2.2.2.2⟩

/-- C8: the parsed upload command rejects, returning the unchanged state (so
nothing is appended to the store): a non-integer correct index; an integer
correct index below 0 or at least the option count, for every option count;
and, when the index is in range, an option count below 2 or above 10. -/
theorem submit_validation (s : SchedState) (q : String) (opts : List String)
    (u t : Nat) (o : DeliveryOutcome) :
    uploadCommand s q opts none u t o = (.invalidIndex, s) ∧
    (∀ z : Int, z < 0 ∨ (opts.length : Int) ≤ z →
      uploadCommand s q opts (some z) u t o = (.invalidIndex, s)) ∧
    (∀ z : Int, 0 ≤ z → z < (opts.length : Int) →
      opts.length < 2 ∨ 10 < opts.length →
      uploadCommand s q opts (some z) u t o = (.badOptionCount, s)) := by
  refine ⟨rfl, ?_, ?_⟩
  · intro z hz
    simp only [uploadCommand]
    rw [if_pos hz]
  · intro z hz0 hzlen hbad
    have hnot : ¬ (z < 0 ∨ (opts.length : Int) ≤ z) := by
      push_neg
      exact ⟨hz0, hzlen⟩
    simp only [uploadCommand]
    rw [if_neg hnot, if_pos hbad]

/-- C8 witness: the three rejections evaluated on concrete inputs: an index 5
with two options, a non-integer index, a single option with index 0, and
eleven options with index 0; each leaves the state stPaused unchanged. -/
theorem submit_validation_witness :
    uploadCommand stPaused "q" ["a", "b"] none 1 0 .failure =
      (.invalidIndex, stPaused) ∧
    uploadCommand stPaused "q" ["a", "b"] (some 5) 1 0 .failure =
      (.invalidIndex, stPaused) ∧
    uploadCommand stPaused "q" ["a"] (some 0) 1 0 .failure =
      (.badOptionCount, stPaused) ∧
    uploadCommand stPaused "q" ["a", "b", "c", "d", "e", "f", "g", "h", "i", "j", "k"]
      (some 0) 1 0 .failure = (.badOptionCount, stPaused) :=
  ⟨(submit_validation stPaused "q" ["a", "b"] 1 0 .failure).1,
    (submit_validation stPaused "q" ["a", "b"] 1 0 .failure).2.1 5 (by decide),
    (submit_validation stPaused "q" ["a"] 1 0 .failure).2.2 0 (by decide) (by decide)
      (by decide),
    (submit_validation stPaused "q" ["a", "b", "c", "d", "e", "f", "g", "h", "i", "j", "k"]
      1 0 .failure).2.2 0 (by decide) (by decide) (by decide)⟩

/-- C10: a successful delivery whose response carries no poll identifier
stores a null delivery reference: after the tick the delivered record has
posted_at non-null (it equals the tick time) while telegram_poll_id is null,
so delivery success does not guarantee a non-null delivery reference. -/
theorem posted_with_null_delivery_ref (s : SchedState) (r : MCQ) (t : Nat)
    (hwf : WFdb s.db) (hr : (getNextUnpostedMCQ s.db).1 = some r) :
    recordById (postNextMCQIfAny s (.success none) t).1.db r.id =
      some { r with posted_at := some t, telegram_poll_id := none } ∧
    (postNextMCQIfAny s (.success none) t).2 = 1 := by
  have hnd := nodup_ids_of_pairwise hwf.1
  have hf : s.db.mcqs.find? isPending = some r := hr
  have htick : postNextMCQIfAny s (.success none) t =
      ({ s with db := markMCQPosted s.db r.id (jsOrNull none) t }, 1) := by
    simp [postNextMCQIfAny, hr]
  rw [htick]
  refine ⟨?_, rfl⟩
  simpa [recordById, markMCQPosted, jsOrNull] using
    recordById_markInList_first_pending hnd hf (jsOrNull none) t

/-- C10 witness: the null-reference success evaluated on the running state
stAB delivering mcqA at tick time 4. -/
theorem posted_with_null_delivery_ref_witness :
    WFdb stAB.db ∧ (getNextUnpostedMCQ stAB.db).1 = some mcqA ∧
    recordById (postNextMCQIfAny stAB (.success none) 4).1.db mcqA.id =
      some { mcqA with posted_at := some 4, telegram_poll_id := none } :=
  ⟨by decide, by decide,
    (posted_with_null_delivery_ref stAB mcqA 4 (by decide) (by decide)).1⟩

theorem schedInv_pause (s : SchedState) : SchedInv (pauseScheduler s) := by
  simp [SchedInv, pauseScheduler]

theorem schedInv_tick (s : SchedState) (o : DeliveryOutcome) (t : Nat)
    (h : SchedInv s) : SchedInv (postNextMCQIfAny s o t).1 := by
  cases hfind : (getNextUnpostedMCQ s.db).1 with
  | none => simp [postNextMCQIfAny, hfind, SchedInv, pauseScheduler]
  | some r =>
    cases o with
    | failure => simpa [postNextMCQIfAny, hfind] using h
    | success raw => simpa [postNextMCQIfAny, hfind, SchedInv] using h

theorem schedInv_start (s : SchedState) (o : DeliveryOutcome) (t : Nat) :
    SchedInv (startScheduler s o t) := by
  unfold startScheduler
  by_cases hh : s.schedulerHandle
  · simp [hh, SchedInv]
  · simp only [hh, Bool.false_eq_true, if_false]
    exact schedInv_tick _ o t (by simp [SchedInv])

theorem schedInv_init (db : DB) (o : DeliveryOutcome) (t : Nat) :
    SchedInv (initScheduler db o t) := by
  unfold initScheduler
  by_cases hc : 0 < countPendingMCQs db
  · simp only [hc, if_true]
    exact schedInv_start _ o t
  · simp [hc, SchedInv]

theorem schedInv_upload (s : SchedState) (q : String) (opts : List String)
    (ci : Option Int) (u t : Nat) (o : DeliveryOutcome) (h : SchedInv s) :
    SchedInv (uploadCommand s q opts ci u t o).2 := by
  cases ci with
  | none => simpa [uploadCommand] using h
  | some z =>
    simp only [uploadCommand]
    by_cases h1 : z < 0 ∨ (opts.length : Int) ≤ z
    · simpa [h1] using h
    · by_cases h2 : opts.length < 2 ∨ 10 < opts.length
      · simpa [h1, h2] using h
      · simp only [h1, h2, if_false]
        by_cases hp : s.schedulerPaused
        · simp only [hp, if_true]
          exact schedInv_start _ o t
        · simpa [hp, SchedInv] using h

/-- C9: the implicit invariant that schedulerPaused is true exactly when the
interval handle is null holds at process start and is preserved by every
operation that touches the scheduler: pauseScheduler, startScheduler, a tick
(including its empty-queue pause branch) and the upload command with its
resume path, so the reported paused status always agrees with whether the
timer exists. -/
theorem scheduler_flag_handle_invariant (s : SchedState) (o : DeliveryOutcome)
    (t : Nat) (q : String) (opts : List String) (ci : Option Int) (u : Nat)
    (db : DB) :
    SchedInv (pauseScheduler s) ∧
    SchedInv (startScheduler s o t) ∧
    (SchedInv s → SchedInv (postNextMCQIfAny s o t).1) ∧
    (SchedInv s → SchedInv (uploadCommand s q opts ci u t o).2) ∧
    SchedInv (initScheduler db o t) :=
  ⟨schedInv_pause s, schedInv_start s o t, schedInv_tick s o t,
    schedInv_upload s q opts ci u t o, schedInv_init db o t⟩

/-- C9 witness: the invariant preservation evaluated on the concrete running
state stAB (which satisfies the invariant) for a failing tick and a concrete
upload. -/
theorem scheduler_flag_handle_invariant_witness :
    SchedInv stAB ∧
    SchedInv (pauseScheduler stAB) ∧
    SchedInv (postNextMCQIfAny stAB .failure 0).1 ∧
    SchedInv (uploadCommand stAB "q" ["a", "b"] (some 0) 1 0 .failure).2 :=
  ⟨by decide,
    (scheduler_flag_handle_invariant stAB .failure 0 "q" ["a", "b"] (some 0) 1 emptyDB).1,
    (scheduler_flag_handle_invariant stAB .failure 0 "q" ["a", "b"] (some 0) 1
      emptyDB).2.2.1 (by decide),
    (scheduler_flag_handle_invariant stAB .failure 0 "q" ["a", "b"] (some 0) 1
      emptyDB).2.2.2.1 (by decide)⟩

/-- C3: the pause/resume state machine: at process start the scheduler is
RUNNING (schedulerPaused = false) exactly when countPendingMCQs is positive,
so it is PAUSED when started on the empty store; one successful submit from
that paused empty-store state is acknowledged with id 1 and resumes the
scheduler (RUNNING with the interval handle installed) performing an
immediate delivery attempt, so the freshly queued item is already posted and
the pending count is back to 0; and the next tick, finding no pending record,
returns the scheduler to PAUSED and stops the timer. -/
theorem scheduler_pause_resume (db : DB) (o o3 : DeliveryOutcome)
    (t t4 : Nat) (q : String) (opts : List String) (z : Int) (u t2 : Nat)
    (raw : Option String)
    (hz0 : 0 ≤ z) (hzlen : z < (opts.length : Int))
    (hlen2 : 2 ≤ opts.length) (hlen10 : opts.length ≤ 10) :
    ((initScheduler db o t).schedulerPaused = false ↔ 0 < countPendingMCQs db) ∧
    (initScheduler emptyDB o t).schedulerPaused = true ∧
    (uploadCommand (initScheduler emptyDB o t) q opts (some z) u t2
      (.success raw)).1 = .queued 1 ∧
    (uploadCommand (initScheduler emptyDB o t) q opts (some z) u t2
      (.success raw)).2.schedulerPaused = false ∧
    (uploadCommand (initScheduler emptyDB o t) q opts (some z) u t2
      (.success raw)).2.schedulerHandle = true ∧
    countPendingMCQs (uploadCommand (initScheduler emptyDB o t) q opts (some z) u t2
      (.success raw)).2.db = 0 ∧
    (postNextMCQIfAny (uploadCommand (initScheduler emptyDB o t) q opts (some z) u t2
      (.success raw)).2 o3 t4).1.schedulerPaused = true ∧
    (postNextMCQIfAny (uploadCommand (initScheduler emptyDB o t) q opts (some z) u t2
      (.success raw)).2 o3 t4).1.schedulerHandle = false := by
  have hinit : initScheduler emptyDB o t = stPaused := rfl
  have h1 : ¬ (z < 0 ∨ (opts.length : Int) ≤ z) := by
    push_neg
    exact ⟨hz0, hzlen⟩
  have h2 : ¬ (opts.length < 2 ∨ 10 < opts.length) := by
    push_neg
    exact ⟨hlen2, hlen10⟩
  have hup : uploadCommand stPaused q opts (some z) u t2 (.success raw) =
      (.queued 1,
        { db := { nextId := 2,
                  mcqs := [{ id := 1, question := q, options := opts,
                             correct_index := z,
                             uploaded_by := jsNumOrNull (some u),
                             uploaded_at := t2, posted_at := some t2,
                             telegram_poll_id := jsOrNull (jsOrNull raw) }] },
          schedulerHandle := true, schedulerPaused := false }) := by
    simp [uploadCommand, h1, h2, addMCQ, stPaused, emptyDB, startScheduler,
      postNextMCQIfAny, getNextUnpostedMCQ, markMCQPosted, markInList, isPending]
  refine ⟨?_, ?_, ?_, ?_, ?_, ?_, ?_, ?_⟩
  · by_cases hc : 0 < countPendingMCQs db
    · obtain ⟨r, hrx⟩ := (countPending_pos_iff db).mp hc
      have hrx' : db.mcqs.find? isPending = some r := hrx
      cases o with
      | failure =>
        simp [initScheduler, hc, startScheduler, postNextMCQIfAny,
          getNextUnpostedMCQ, hrx']
      | success raw2 =>
        simp [initScheduler, hc, startScheduler, postNextMCQIfAny,
          getNextUnpostedMCQ, hrx']
    · simp [initScheduler, hc]
  · rw [hinit]
    rfl
  · rw [hinit, hup]
  · rw [hinit, hup]
  · rw [hinit, hup]
  · rw [hinit, hup]
    simp [countPendingMCQs, isPending]
  · rw [hinit, hup]
    simp [postNextMCQIfAny, getNextUnpostedMCQ, isPending, pauseScheduler]
  · rw [hinit, hup]
    simp [postNextMCQIfAny, getNextUnpostedMCQ, isPending, pauseScheduler]

/-- C3 witness: the pause/resume scenario of the specification evaluated
concretely: submitting ("2+2=?", ["3","4","5"], 1) to the paused empty-store
scheduler resumes it, posts immediately, and the next tick pauses again. -/
theorem scheduler_pause_resume_witness :
    ((0 : Int) ≤ 1 ∧ (1 : Int) < ((["3", "4", "5"] : List String).length : Int) ∧
      2 ≤ (["3", "4", "5"] : List String).length ∧
      (["3", "4", "5"] : List String).length ≤ 10) ∧
    ((initScheduler dbAB .failure 0).schedulerPaused = false ↔
      0 < countPendingMCQs dbAB) ∧
    (initScheduler emptyDB .failure 0).schedulerPaused = true ∧
    (uploadCommand (initScheduler emptyDB .failure 0) "2+2=?" ["3", "4", "5"]
      (some 1) 7 5 (.success (some "ref"))).2.schedulerPaused = false ∧
    (postNextMCQIfAny (uploadCommand (initScheduler emptyDB .failure 0) "2+2=?"
      ["3", "4", "5"] (some 1) 7 5 (.success (some "ref"))).2 .failure
      6).1.schedulerPaused = true :=
  ⟨by decide,
    (scheduler_pause_resume dbAB .failure .failure 0 6 "2+2=?" ["3", "4", "5"] 1 7 5
      (some "ref") (by decide) (by decide) (by decide) (by decide)).1,
    (scheduler_pause_resume dbAB .failure .failure 0 6 "2+2=?" ["3", "4", "5"] 1 7 5
      (some "ref") (by decide) (by decide) (by decide) (by decide)).2.1,
    (scheduler_pause_resume dbAB .failure .failure 0 6 "2+2=?" ["3", "4", "5"] 1 7 5
      (some "ref") (by decide) (by decide) (by decide) (by decide)).2.2.2.1,
    (scheduler_pause_resume dbAB .failure .failure 0 6 "2+2=?" ["3", "4", "5"] 1 7 5
      (some "ref") (by decide) (by decide) (by decide) (by decide)).2.2.2.2.2.2.1⟩

end QuizSchedulerBot
